import Mathlib

/-!
Verification development for the `yamldb` embedded document store
(`src/yamldb.py`).  The Python source is shallowly embedded: pure helpers
become Lean functions, the SQLite index table becomes an explicit list of
rows, the file system becomes an association list from document id to file
bytes, and Python exceptions become `Except` errors.  The YAML codec, the
SHA-1 digest and the uuid4 generator are external collaborators of the
source; they enter the model as explicit parameters (`Runtime`, and the
generated-id argument of `save`).
-/

deriving instance DecidableEq for Except

namespace YamlDb

/-- Errors raised by the embedded Python code. -/
inductive Err
  /-- `yaml.load` raised on undecodable bytes (or produced a non-mapping,
  making the subsequent `rv[...] = id` item assignment fail). -/
  | decodeFailure
  /-- `document[...]` lookup failed (missing key). -/
  | keyError
  /-- unpacking `sql, vars = ...` of a non-pair failed. -/
  | valueError
  /-- an operation was applied to a value of an unsupported type
  (e.g. `os.path.join` with a non-string component). -/
  | typeError
  /-- attribute lookup failed (e.g. `os.path.join` probing `.startswith`
  on a function object). -/
  | attributeError
  /-- the SQL engine rejected a statement (e.g. an unknown column). -/
  | operationalError
  /-- a file operation failed (e.g. opening a missing file). -/
  | ioError
deriving DecidableEq

/-- Model of `datetime.datetime` restricted to the fields the source
formats with `strftime` (always rendered UTC, no microseconds). -/
structure PyDateTime where
  year : Nat
  month : Nat
  day : Nat
  hour : Nat
  minute : Nat
  second : Nat
deriving DecidableEq

/-- The Python values the source stores in documents and binds as SQL
parameters: `None`, `bool`, `int`/`long`, `datetime.datetime` and text.
(`bool` is listed separately even though Python treats it as a subtype of
`int`; `stringify` routes it through the integer branch accordingly.) -/
inductive PVal
  | none
  | bool (b : Bool)
  | int (i : Int)
  | datetime (dt : PyDateTime)
  | str (s : String)
deriving DecidableEq

/-! ### Decimal rendering (the `%016d`-style format specifiers)

Python's `%d` renders the decimal digits of the absolute value, most
significant first; a width with a `0` flag left-pads with zeros (after the
sign) up to the requested total width.  The digit expansion is written
with explicit fuel so that it reduces inside the kernel; `n` itself is
always enough fuel because `n / b < n` for `b ≥ 2`, `n ≥ b`. -/

/-- Most-significant-first base-`b` digits of `n`, fuel-driven.  With
`n ≤ fuel` and `2 ≤ b` this is the plain recursion
`if n < b then [n] else digits (n / b) ++ [n % b]`. -/
def baseDigitsGo (b : Nat) : Nat → Nat → List Nat
  | 0, n => [n]
  | fuel + 1, n => if n < b then [n] else baseDigitsGo b fuel (n / b) ++ [n % b]

/-- Most-significant-first base-`b` digits of `n` (`[0]` for `n = 0`). -/
def baseDigits (b n : Nat) : List Nat :=
  baseDigitsGo b n n

/-- Left-pad a digit list with zeros to width `w` (no-op when already at
least that long, like Python's zero-padded minimum field width). -/
def padZeros (w : Nat) (l : List Nat) : List Nat :=
  List.replicate (w - l.length) 0 ++ l

/-- The character for a decimal digit (`0`–`9` for `d < 10`). -/
def digitChar (d : Nat) : Char :=
  Char.ofNat (48 + d)

/-- Render a digit list as text. -/
def digitsToString (l : List Nat) : String :=
  String.mk (l.map digitChar)

/-- `u'%016d' % value` : sign, then the decimal digits zero-padded so the
whole rendering is at least 16 characters wide. -/
def intPad16 (i : Int) : String :=
  if i < 0 then
    "-" ++ digitsToString (padZeros 15 (baseDigits 10 i.natAbs))
  else
    digitsToString (padZeros 16 (baseDigits 10 i.natAbs))

/-- `value.strftime('%Y-%m-%dT%H:%M:%SZ')`. -/
def strftimeISO (dt : PyDateTime) : String :=
  digitsToString (padZeros 4 (baseDigits 10 dt.year)) ++ "-" ++
  digitsToString (padZeros 2 (baseDigits 10 dt.month)) ++ "-" ++
  digitsToString (padZeros 2 (baseDigits 10 dt.day)) ++ "T" ++
  digitsToString (padZeros 2 (baseDigits 10 dt.hour)) ++ ":" ++
  digitsToString (padZeros 2 (baseDigits 10 dt.minute)) ++ ":" ++
  digitsToString (padZeros 2 (baseDigits 10 dt.second)) ++ "Z"

/-- `stringify(value)` (src/yamldb.py lines 16-23).  `None` stays `None`;
`int`/`long` — and therefore `bool`, a Python `int` subtype — render as
`u'%016d'`; `datetime` renders as canonical UTC text; anything else is
`unicode(value)`. -/
def stringify : PVal → PVal
  | PVal.none => PVal.none
  | PVal.bool b => PVal.str (intPad16 (if b then 1 else 0))
  | PVal.int i => PVal.str (intPad16 i)
  | PVal.datetime dt => PVal.str (strftimeISO dt)
  | PVal.str s => PVal.str s

example : stringify (PVal.int 5) = PVal.str "0000000000000005" := by decide
example : stringify (PVal.bool true) = PVal.str "0000000000000001" := by decide
example : stringify (PVal.int (-5)) = PVal.str "-000000000000005" := by decide
example : stringify (PVal.datetime ⟨2011, 1, 1, 0, 0, 0⟩)
    = PVal.str "2011-01-01T00:00:00Z" := by decide

/-! ### Documents, files and index rows

A document is a Python (ordered) dict: an association list from field
name to value.  The content store of a collection is an association list
from document id to the raw bytes of its `<id>.yml` file.  The collection
index table is a list of rows; a row assigns a `PVal` (text or SQL NULL)
to each column name, in insertion (rowid) order, which is also the order
sqlite yields rows of a full scan or an equal-key index probe. -/

/-- An ordered field mapping (Python dict / `OrderedDict`). -/
abbrev Doc := List (String × PVal)

/-- File bytes. -/
abbrev Bytes := List Nat

/-- One collection directory: document id to file bytes. -/
abbrev Files := List (String × Bytes)

/-- One index-table row: column name to stored value. -/
abbrev Row := List (String × PVal)

/-- First value stored under key `k`, if any (Python `d[k]` presence). -/
def getAssoc {α : Type} (l : List (String × α)) (k : String) : Option α :=
  (l.find? (fun p => p.1 == k)).map (fun p => p.2)

/-- Python `d[k] = v`: replace the value in place if the key is present,
append the pair otherwise. -/
def setAssoc {α : Type} : List (String × α) → String → α → List (String × α)
  | [], k, v => [(k, v)]
  | (k0, v0) :: rest, k, v =>
      if k0 == k then (k0, v) :: rest else (k0, v0) :: setAssoc rest k v

/-- Python `document.get(k)`: the stored value, or `None` when absent. -/
def docGetD (doc : Doc) (k : String) : PVal :=
  (getAssoc doc k).getD PVal.none

/-- Code-point comparison of text keys (Python unicode `<=`), written
directly on the character lists so it reduces in the kernel. -/
def strLeB : List Char → List Char → Bool
  | [], _ => true
  | _ :: _, [] => false
  | a :: as, b :: bs => if a < b then true else if b < a then false else strLeB as bs

/-- Insert into a key-sorted association list (helper for `sorted`). -/
def insertByKey (p : String × PVal) : Doc → Doc
  | [] => [p]
  | q :: rest =>
      if strLeB p.1.data q.1.data then p :: q :: rest else q :: insertByKey p rest

/-- Python `sorted(document.items())`: sort the fields by name (dict keys
are unique, so the tuple comparison never reaches the values). -/
def sortDoc : Doc → Doc
  | [] => []
  | p :: rest => insertByKey p (sortDoc rest)

/-- The external collaborators of the source, as explicit parameters:
`yaml.dump` (encode a document to bytes), `yaml.load` (decode, `none`
meaning the bytes raise on decode or decode to a non-mapping), and the
streaming SHA-1 hex digest of `get_file_hash` / `hashlib.sha1`. -/
structure Runtime where
  dump : Doc → Bytes
  load : Bytes → Option Doc
  hash : Bytes → String
deriving Inhabited

/-- A declared collection: its name and its indexed column names
(`Collection.__init__` stores `list(set(['_id']) | set(indexes))`, so
`"_id"` is always a member; the table schema adds a final `_hash` text
column, so no index may itself be called `"_hash"` or table creation
fails). -/
structure Collection where
  name : String
  indexes : List String
deriving DecidableEq

/-- The mutable state of one collection: its content-store directory and
its index table. -/
structure State where
  files : Files
  index : List Row
deriving DecidableEq

/-- SQLite equality of a stored value and a bound parameter: NULL never
compares equal; equal text (or equal values of the same type) does. -/
def sqlEq : PVal → PVal → Bool
  | PVal.none, _ => false
  | _, PVal.none => false
  | PVal.str a, PVal.str b => a == b
  | PVal.int a, PVal.int b => a == b
  | PVal.bool a, PVal.bool b => a == b
  | PVal.datetime a, PVal.datetime b => decide (a = b)
  | _, _ => false

/-- The value of column `c` in row `r` (rows built by the source always
carry every schema column). -/
def getCol (r : Row) (c : String) : PVal :=
  (getAssoc r c).getD PVal.none

/-- `select ... from t where _id = ?` with the text `id` bound, keeping
the first matching row (`fetchone`, rowid order). -/
def rowFind (idx : List Row) (id : String) : Option Row :=
  idx.find? (fun r => sqlEq (getCol r "_id") (PVal.str id))

/-- The row inserted by `_update_index_for`: each indexed column holds
`stringify(document.get(index))`, and `_hash` holds the content hash. -/
def mkRow (cfg : Collection) (doc : Doc) (h : String) : Row :=
  cfg.indexes.map (fun ix => (ix, stringify (docGetD doc ix))) ++ [("_hash", PVal.str h)]

/-- `Collection._update_index_for(document, hash)` (lines 410-432):
`delete from t where _id = ?` (binding `document['_id']`, a `KeyError`
when absent), then `insert` the fresh row; the insert appends in rowid
order. -/
def updateIndexFor (cfg : Collection) (doc : Doc) (h : String) (idx : List Row) :
    Except Err (List Row) :=
  match getAssoc doc "_id" with
  | Option.none => Except.error Err.keyError
  | some v =>
      Except.ok ((idx.filter (fun r => !(sqlEq (getCol r "_id") v))) ++ [mkRow cfg doc h])

/-- `Collection.get(id)` (lines 434-441): absent file yields Python
`None`; an existing file is decoded (raising on decode failure) and the
result gets `_id` injected. -/
def Collection.get (rt : Runtime) (files : Files) (id : String) :
    Except Err (Option Doc) :=
  match getAssoc files id with
  | Option.none => Except.ok Option.none
  | some bytes =>
      match rt.load bytes with
      | Option.none => Except.error Err.decodeFailure
      | some doc => Except.ok (some (setAssoc doc "_id" (PVal.str id)))

/-- The skip test of `_try_reindex_file`: `row is not None and
row[0] == hash` for the `select _hash ... where _id = ?` probe. -/
def reindexFetchSkip (idx : List Row) (id : String) (h : String) : Bool :=
  match rowFind idx id with
  | some r => sqlEq (getCol r "_hash") (PVal.str h)
  | Option.none => false

/-- `Collection._try_reindex_file(full_filename, id, cur)` (lines
399-408): hash the file (an I/O error if it vanished), skip when the
recorded hash matches, otherwise read the document — propagating a decode
failure — skip if the file reads as absent, else upsert its index row. -/
def tryReindexFile (rt : Runtime) (cfg : Collection) (files : Files)
    (idx : List Row) (id : String) : Except Err (List Row) :=
  match getAssoc files id with
  | Option.none => Except.error Err.ioError
  | some bytes =>
      if reindexFetchSkip idx id (rt.hash bytes) then Except.ok idx
      else
        match Collection.get rt files id with
        | Except.error e => Except.error e
        | Except.ok Option.none => Except.ok idx
        | Except.ok (some doc) => updateIndexFor cfg doc (rt.hash bytes) idx

/-- The loop of `Collection.reindex(cur)` (lines 376-383): visit each
listed file of the directory in turn, threading the index table. -/
def reindexGo (rt : Runtime) (cfg : Collection) (files : Files) :
    List (String × Bytes) → List Row → Except Err (List Row)
  | [], idx => Except.ok idx
  | (id, _) :: rest, idx =>
      match tryReindexFile rt cfg files idx id with
      | Except.error e => Except.error e
      | Except.ok idx2 => reindexGo rt cfg files rest idx2

/-- `Collection.reindex`: the directory listing is the content store
itself. -/
def Collection.reindex (rt : Runtime) (cfg : Collection) (st : State) :
    Except Err (List Row) :=
  reindexGo rt cfg st.files st.files st.index

/-- `Database.reindex()` (lines 329-337): reconcile each declared
collection in turn, committing per collection; a failure stops the pass. -/
def Database.reindex (rt : Runtime) :
    List (Collection × State) → Except Err (List (Collection × State))
  | [] => Except.ok []
  | (cfg, st) :: rest =>
      match Collection.reindex rt cfg st with
      | Except.error e => Except.error e
      | Except.ok idx2 =>
          match Database.reindex rt rest with
          | Except.error e => Except.error e
          | Except.ok rest2 => Except.ok ((cfg, { st with index := idx2 }) :: rest2)

/-- The body of `Collection.save` after the initial dict normalization.
The source runs `id = document.get('_id')` and tests `if id is None:` —
so a document whose `_id` key is absent *and* one whose `_id` key holds
`None` both take the generate-id branch (`docGetD` is exactly
`document.get`, yielding `None` in both situations); the fresh uuid4
text `gen` is assigned in place.  A present `_id` of any non-text,
non-`None` kind makes the path join raise.  The encoded bytes are
written to the document's file, and the index row is upserted with
their SHA-1. -/
def saveCore (rt : Runtime) (cfg : Collection) (st : State) (gen : String)
    (document : Doc) : Except Err (Doc × State) :=
  match docGetD document "_id" with
  | PVal.none =>
      match updateIndexFor cfg (setAssoc document "_id" (PVal.str gen))
          (rt.hash (rt.dump (setAssoc document "_id" (PVal.str gen)))) st.index with
      | Except.error e => Except.error e
      | Except.ok idx2 =>
          Except.ok (setAssoc document "_id" (PVal.str gen),
            { files := setAssoc st.files gen
                (rt.dump (setAssoc document "_id" (PVal.str gen))),
              index := idx2 })
  | PVal.str id =>
      match updateIndexFor cfg document (rt.hash (rt.dump document)) st.index with
      | Except.error e => Except.error e
      | Except.ok idx2 =>
          Except.ok (document,
            { files := setAssoc st.files id (rt.dump document), index := idx2 })
  | _ => Except.error Err.typeError

/-- `Collection.save(document)` (lines 443-458): a plain `dict` argument
is first normalized to key-sorted order (`OrderedDict(sorted(...))`),
then saved. -/
def Collection.save (rt : Runtime) (cfg : Collection) (st : State)
    (gen : String) (isPlainDict : Bool) (document : Doc) :
    Except Err (Doc × State) :=
  saveCore rt cfg st gen (if isPlainDict then sortDoc document else document)

/-- A Python name as it appears where the source expects a path
component: either text, or the `id` builtin function that
`Collection.delete` actually references. -/
inductive PyObj
  | str (s : String)
  | builtinId

/-- `os.path.join(dir, component)`: probing `.startswith` on a function
object raises `AttributeError`. -/
def pathJoin (p : String) : PyObj → Except Err String
  | PyObj.str s => Except.ok (p ++ "/" ++ s)
  | PyObj.builtinId => Except.error Err.attributeError

/-- `Collection.delete(document)` (lines 460-474).  The body never uses
its `document` parameter: `fn = os.path.join(self.path, id)` resolves
`id` to the global builtin function, so the join raises before any file
or row is touched.  (Were the join ever to succeed, the subsequent
`delete from t where id = ?` would still fail: the schema has an `_id`
column, not `id`.) -/
def Collection.delete (cfg : Collection) (st : State) (document : Doc) :
    Except Err (Bool × State) :=
  match pathJoin cfg.name PyObj.builtinId with
  | Except.error e => Except.error e
  | Except.ok _ => Except.error Err.operationalError

/-- The resolution loop of `Query.all()` (lines 144-151): fetch each id's
document, keep the ones that resolve, let a decode failure propagate,
and silently drop ids whose file is gone (`rv is not None`). -/
def allResolve (rt : Runtime) (files : Files) : List String → Except Err (List Doc)
  | [] => Except.ok []
  | id :: rest =>
      match Collection.get rt files id with
      | Except.error e => Except.error e
      | Except.ok Option.none => allResolve rt files rest
      | Except.ok (some doc) =>
          match allResolve rt files rest with
          | Except.error e => Except.error e
          | Except.ok docs => Except.ok (doc :: docs)

/-! ### Query expression compiler

The expression node classes `_Literal`, `_Name`, `_IsNull`, `_Neg`,
`_Op`, `_Extract` become one inductive.  Every caller of a node's
`to_sql` immediately unpacks `sql, vars = ...`, which requires a pair;
`_IsNull.to_sql` however returns a bare fragment string (its computed
`vars` are dropped), so the result type distinguishes the two shapes and
unpacking a bare string raises (its length is never 2). -/

/-- A query expression tree node. -/
inductive Expr
  | lit (v : PVal) (strfy : Bool)
  | name (n : String)
  | isNull (e : Expr) (isN : Bool)
  | neg (e : Expr)
  | op (l : Expr) (r : Expr) (o : String)
  | extract (e : Expr) (fmt : String)
deriving DecidableEq

/-- What a `to_sql` call returns: a `(fragment, parameters)` pair, or —
for `_IsNull` only — a bare fragment string. -/
inductive SqlRet
  | pair (s : String) (vs : List PVal)
  | strOnly (s : String)
deriving DecidableEq

/-- `sql, vars = ret`: tuple-unpacking a non-pair raises. -/
def unpack : SqlRet → Except Err (String × List PVal)
  | SqlRet.pair s vs => Except.ok (s, vs)
  | SqlRet.strOnly _ => Except.error Err.valueError

/-- `to_sql` of each node class (lines 234-303).  `_Literal` binds one
parameter, optionally stringified; `_Name` quotes the column; `_IsNull`
returns only the fragment text, dropping its operand's parameters;
`_Neg` appends the descending marker; `_Op` parenthesizes and chains the
two parameter lists left to right; `_Extract` wraps in
`cast(strftime(...) as integer)`. -/
def toSql : Expr → Except Err SqlRet
  | Expr.lit v strfy =>
      Except.ok (SqlRet.pair "?" [if strfy then stringify v else v])
  | Expr.name n =>
      Except.ok (SqlRet.pair ("\x22" ++ n ++ "\x22") [])
  | Expr.isNull e isN =>
      match toSql e with
      | Except.error err => Except.error err
      | Except.ok ret =>
          match unpack ret with
          | Except.error err => Except.error err
          | Except.ok (s, _) =>
              Except.ok (SqlRet.strOnly
                (s ++ " " ++ (if isN then "is null" else "is not null")))
  | Expr.neg e =>
      match toSql e with
      | Except.error err => Except.error err
      | Except.ok ret =>
          match unpack ret with
          | Except.error err => Except.error err
          | Except.ok (s, vs) => Except.ok (SqlRet.pair (s ++ " desc") vs)
  | Expr.op l r o =>
      match toSql l with
      | Except.error err => Except.error err
      | Except.ok retl =>
          match unpack retl with
          | Except.error err => Except.error err
          | Except.ok (sa, va) =>
              match toSql r with
              | Except.error err => Except.error err
              | Except.ok retr =>
                  match unpack retr with
                  | Except.error err => Except.error err
                  | Except.ok (sb, vb) =>
                      Except.ok (SqlRet.pair
                        ("(" ++ sa ++ " " ++ o ++ " " ++ sb ++ ")") (va ++ vb))
  | Expr.extract e fmt =>
      match toSql e with
      | Except.error err => Except.error err
      | Except.ok ret =>
          match unpack ret with
          | Except.error err => Except.error err
          | Except.ok (s, vs) =>
              Except.ok (SqlRet.pair
                ("cast(strftime(\x27" ++ fmt ++ "\x27, " ++ s ++ ") as integer)") vs)

/-- The accumulator state of a `Query` (lines 75-82). -/
structure Query where
  whereSql : List String
  whereVars : List PVal
  orderSql : List String
  orderVars : List PVal
  limit : Option Expr
  offset : Option Expr
deriving DecidableEq

/-- A freshly constructed `Query`. -/
def Query.init : Query :=
  { whereSql := [], whereVars := [], orderSql := [], orderVars := [],
    limit := Option.none, offset := Option.none }

/-- One builder-method call on a `Query`.  `limit(value)` / `offset(value)`
wrap a raw value as `_Literal(value, stringify=False)`; that wrapping is
`QOp.limitOp (Expr.lit v false)` here. -/
inductive QOp
  | filterOp (e : Expr)
  | orderByOp (e : Expr)
  | limitOp (e : Expr)
  | offsetOp (e : Expr)
deriving DecidableEq

/-- Is this a `filter(...)` call? -/
def QOp.isFilter : QOp → Bool
  | QOp.filterOp _ => true
  | _ => false

/-- Apply one builder call (lines 84-106): `filter` and `order_by`
compile their expression eagerly and extend the fragment/parameter
accumulators; `limit` and `offset` merely store the expression. -/
def applyOp (q : Query) : QOp → Except Err Query
  | QOp.filterOp e =>
      match toSql e with
      | Except.error err => Except.error err
      | Except.ok ret =>
          match unpack ret with
          | Except.error err => Except.error err
          | Except.ok (s, vs) =>
              Except.ok { q with whereSql := q.whereSql ++ [s],
                                 whereVars := q.whereVars ++ vs }
  | QOp.orderByOp e =>
      match toSql e with
      | Except.error err => Except.error err
      | Except.ok ret =>
          match unpack ret with
          | Except.error err => Except.error err
          | Except.ok (s, vs) =>
              Except.ok { q with orderSql := q.orderSql ++ [s],
                                 orderVars := q.orderVars ++ vs }
  | QOp.limitOp e => Except.ok { q with limit := some e }
  | QOp.offsetOp e => Except.ok { q with offset := some e }

/-- A chain of builder calls starting from some query. -/
def applyOps (q : Query) : List QOp → Except Err Query
  | [] => Except.ok q
  | op :: rest =>
      match applyOp q op with
      | Except.error e => Except.error e
      | Except.ok q2 => applyOps q2 rest

/-- Python `sep.join(items)`. -/
def strJoin (sep : String) : List String → String
  | [] => ""
  | [x] => x
  | x :: y :: rest => x ++ sep ++ strJoin sep (y :: rest)

/-- The statement text of `_make_select` before any limit clause.
`columns or ['*']` and `self._order_sql or ['_id']` treat an empty list
as falsy. -/
def baseSelectSql (name : String) (q : Query) (columns : List String) : String :=
  "select " ++ strJoin ", " (if columns.isEmpty then ["*"] else columns) ++
  " from \x22" ++ name ++ "\x22 where " ++ strJoin " and " q.whereSql ++
  " order by " ++ strJoin ", " (if q.orderSql.isEmpty then ["_id"] else q.orderSql)

/-- `Query._make_select(columns)` (lines 108-124): the select text over
the collection's table with the conjoined predicates and order terms, and
the bound parameters in the order where-vars, order-vars, then — only
when a limit is present — limit vars and, only then, offset vars. -/
def makeSelect (name : String) (q : Query) (columns : List String) :
    Except Err (String × List PVal) :=
  let sql := baseSelectSql name q columns
  let vars := q.whereVars ++ q.orderVars
  match q.limit with
  | Option.none => Except.ok (sql, vars)
  | some lim =>
      match toSql lim with
      | Except.error e => Except.error e
      | Except.ok retl =>
          match unpack retl with
          | Except.error e => Except.error e
          | Except.ok (ls, lv) =>
              let sql := sql ++ " limit " ++ ls
              let vars := vars ++ lv
              match q.offset with
              | Option.none => Except.ok (sql, vars)
              | some off =>
                  match toSql off with
                  | Except.error e => Except.error e
                  | Except.ok reto =>
                      match unpack reto with
                      | Except.error e => Except.error e
                      | Except.ok (os, ov) =>
                          Except.ok (sql ++ " offset " ++ os, vars ++ ov)

example :
    makeSelect "posts" Query.init ["_id"] =
      Except.ok ("select _id from \x22posts\x22 where  order by _id", []) := by
  decide

example :
    toSql (Expr.op (Expr.name "a") (Expr.lit (PVal.int 3) true) "=") =
      Except.ok (SqlRet.pair "(\x22a\x22 = ?)" [PVal.str "0000000000000003"]) := by
  decide

example :
    toSql (Expr.isNull (Expr.name "x") true) =
      Except.ok (SqlRet.strOnly "\x22x\x22 is null") := by
  decide

/-! ### Claims about the query builder -/

/-- C10: `stringify` maps boolean values through the integer branch
(Python `bool` is an `int` subtype), giving the 16-digit zero-padded
encodings of 0 and 1, never the default text `"False"`/`"True"`. -/
theorem stringify_bool_via_int_branch :
    stringify (PVal.bool false) = PVal.str "0000000000000000"
    ∧ stringify (PVal.bool true) = PVal.str "0000000000000001"
    ∧ stringify (PVal.bool false) ≠ PVal.str "False"
    ∧ stringify (PVal.bool true) ≠ PVal.str "True" := by
  decide

/-- C2 (code bug): `_IsNull.to_sql` violates the compilation contract —
it returns the bare fragment string instead of a `(fragment, parameters)`
pair (its operand's parameter list is computed and then dropped), so the
very first caller to unpack it, `Query.filter`, raises. -/
theorem isNull_to_sql_drops_parameters :
    toSql (Expr.isNull (Expr.name "x") true)
      = Except.ok (SqlRet.strOnly "\x22x\x22 is null")
    ∧ applyOp Query.init (QOp.filterOp (Expr.isNull (Expr.name "x") true))
      = Except.error Err.valueError := by
  decide

/-- C3 (code bug): `Collection.delete` never consults its `document`
argument — its body resolves the global builtin `id`, so the path join
raises `AttributeError` on every call, existing id or not; it can return
neither `false` nor `true`. -/
theorem delete_always_raises (cfg : Collection) (st : State) (document : Doc) :
    Collection.delete cfg st document = Except.error Err.attributeError :=
  rfl

/-- C8: `_make_select` emits an offset clause only under a limit clause —
with no limit the stored offset expression is ignored entirely (same
statement and parameters as with no offset at all), and with both the
text ends `... limit <n> offset <m>` with the parameters appended in that
order. -/
theorem offset_applied_only_with_limit (name : String) (q : Query)
    (columns : List String) (e lim off : Expr) (ls os : String) (lv ov : List PVal) :
    makeSelect name { q with limit := Option.none, offset := some e } columns
      = makeSelect name { q with limit := Option.none, offset := Option.none } columns
    ∧ (toSql lim = Except.ok (SqlRet.pair ls lv) →
       toSql off = Except.ok (SqlRet.pair os ov) →
       makeSelect name { q with limit := some lim, offset := some off } columns
         = Except.ok
             (baseSelectSql name q columns ++ " limit " ++ ls ++ " offset " ++ os,
              q.whereVars ++ q.orderVars ++ lv ++ ov)) := by
  constructor
  · simp [makeSelect, baseSelectSql]
  · intro hl ho
    simp [makeSelect, hl, ho, unpack, baseSelectSql]

/-- Witness for C8 at a concrete query: `offset(2)` alone is ignored;
`limit(5).offset(2)` yields `... limit ? offset ?` binding 5 then 2. -/
theorem offset_applied_only_with_limit_witness :
    makeSelect "t"
        { Query.init with limit := Option.none,
                          offset := some (Expr.lit (PVal.int 2) false) } ["_id"]
      = makeSelect "t"
          { Query.init with limit := Option.none, offset := Option.none } ["_id"]
    ∧ makeSelect "t"
        { Query.init with limit := some (Expr.lit (PVal.int 5) false),
                          offset := some (Expr.lit (PVal.int 2) false) } ["_id"]
      = Except.ok
          (baseSelectSql "t" Query.init ["_id"] ++ " limit " ++ "?" ++ " offset " ++ "?",
           Query.init.whereVars ++ Query.init.orderVars
             ++ [PVal.int 5] ++ [PVal.int 2]) :=
  ⟨(offset_applied_only_with_limit "t" Query.init ["_id"]
      (Expr.lit (PVal.int 2) false) (Expr.lit (PVal.int 5) false)
      (Expr.lit (PVal.int 2) false) "?" "?" [PVal.int 5] [PVal.int 2]).1,
   (offset_applied_only_with_limit "t" Query.init ["_id"]
      (Expr.lit (PVal.int 2) false) (Expr.lit (PVal.int 5) false)
      (Expr.lit (PVal.int 2) false) "?" "?" [PVal.int 5] [PVal.int 2]).2 rfl rfl⟩

/-- A builder call other than `filter` leaves the where accumulator
untouched. -/
theorem applyOp_noFilter_whereSql {q q2 : Query} {op : QOp}
    (hnf : op.isFilter = false) (h : applyOp q op = Except.ok q2) :
    q2.whereSql = q.whereSql := by
  cases op with
  | filterOp e => simp [QOp.isFilter] at hnf
  | orderByOp e =>
      simp only [applyOp] at h
      split at h
      · cases h
      · split at h
        · cases h
        · cases h
          rfl
  | limitOp e => cases h; rfl
  | offsetOp e => cases h; rfl

/-- A chain of builder calls with no `filter` leaves the where
accumulator untouched. -/
theorem applyOps_noFilter_whereSql (ops : List QOp) :
    ∀ q q2 : Query, applyOps q ops = Except.ok q2 →
      (∀ op ∈ ops, op.isFilter = false) → q2.whereSql = q.whereSql := by
  induction ops with
  | nil =>
      intro q q2 h _
      cases h
      rfl
  | cons op rest ih =>
      intro q q2 h hnf
      unfold applyOps at h
      split at h
      · cases h
      · next q3 hop =>
          have h1 : q3.whereSql = q.whereSql :=
            applyOp_noFilter_whereSql (hnf op (by simp)) hop
          have h2 : q2.whereSql = q3.whereSql :=
            ih q3 q2 h (fun o ho => hnf o (by simp [ho]))
          rw [h2, h1]

/-- The statement text of `_make_select` always starts with the base
select text (any limit/offset clause is appended after it). -/
theorem makeSelect_sql_shape {name : String} {q : Query} {columns : List String}
    {sv : String × List PVal} (h : makeSelect name q columns = Except.ok sv) :
    ∃ tail, sv.1 = baseSelectSql name q columns ++ tail := by
  unfold makeSelect at h
  split at h
  · cases h
    exact ⟨"", (String.append_empty _).symm⟩
  · split at h
    · cases h
    · split at h
      · cases h
      · next ls lv _ =>
          split at h
          · cases h
            exact ⟨" limit " ++ ls, by simp [String.append_assoc]⟩
          · split at h
            · cases h
            · split at h
              · cases h
              · next os ov _ =>
                  cases h
                  exact ⟨" limit " ++ ls ++ " offset " ++ os, by
                    simp [String.append_assoc]⟩

/-- C9: a query built without any `filter()` call reaches `_make_select`
with an empty conjunction, so the emitted statement reads
`... where  order by ...` — `where` immediately followed by `order by`
with no predicate between them (invalid SQL, so executing `first()` or
`all()` on a filterless query fails rather than returning everything). -/
theorem filterless_query_has_empty_where (name : String) (ops : List QOp)
    (q : Query) (columns : List String) (sv : String × List PVal)
    (hops : applyOps Query.init ops = Except.ok q)
    (hnf : ∀ op ∈ ops, op.isFilter = false)
    (hms : makeSelect name q columns = Except.ok sv) :
    q.whereSql = [] ∧
    ∃ rest, sv.1 =
      "select " ++ strJoin ", " (if columns.isEmpty then ["*"] else columns)
        ++ " from \x22" ++ name ++ "\x22 where  order by " ++ rest := by
  have hw : q.whereSql = [] := applyOps_noFilter_whereSql ops Query.init q hops hnf
  refine ⟨hw, ?_⟩
  obtain ⟨tail, htail⟩ := makeSelect_sql_shape hms
  refine ⟨strJoin ", " (if q.orderSql.isEmpty then ["_id"] else q.orderSql) ++ tail, ?_⟩
  rw [htail]
  unfold baseSelectSql
  rw [hw]
  show ("select " ++ _ ++ " from \x22" ++ name ++ "\x22 where " ++ strJoin " and " []
      ++ " order by " ++ _) ++ tail = _
  have hempty : strJoin " and " ([] : List String) = "" := rfl
  rw [hempty, String.append_empty]
  simp only [String.append_assoc]
  congr 1

/-- Witness for C9: the empty builder chain on collection `t`, projected
to `_id`, emits exactly `select _id from "t" where  order by _id`. -/
theorem filterless_query_has_empty_where_witness :
    Query.init.whereSql = [] ∧
    ∃ rest, ("select _id from \x22t\x22 where  order by _id", ([] : List PVal)).1 =
      "select " ++ strJoin ", " (if (["_id"] : List String).isEmpty then ["*"] else ["_id"])
        ++ " from \x22" ++ "t" ++ "\x22 where  order by " ++ rest :=
  filterless_query_has_empty_where "t" [] Query.init ["_id"]
    ("select _id from \x22t\x22 where  order by _id", []) rfl
    (by intro op hop; cases hop) (by decide)

/-! ### The value of a digit list, and order transport to text

`valB b l` reads a most-significant-first digit list back as a number;
the zero-padded rendering of `intPad16` is strictly monotone on
naturals below `10 ^ 16` because equal-length digit strings compare
lexicographically exactly as their values do. -/

/-- The number denoted by a most-significant-first base-`b` digit list. -/
def valB (b : Nat) (l : List Nat) : Nat :=
  l.foldl (fun a d => b * a + d) 0

theorem valB_foldl_from (b : Nat) (l : List Nat) :
    ∀ a, l.foldl (fun a d => b * a + d) a = a * b ^ l.length + valB b l := by
  induction l with
  | nil => intro a; simp [valB]
  | cons d t ih =>
      intro a
      have hv : valB b (d :: t) = d * b ^ t.length + valB b t := by
        show List.foldl _ (b * 0 + d) t = _
        rw [ih (b * 0 + d)]
        ring_nf
      simp only [List.foldl_cons, List.length_cons]
      rw [ih (b * a + d), hv]
      ring

theorem valB_cons (b d : Nat) (t : List Nat) :
    valB b (d :: t) = d * b ^ t.length + valB b t := by
  show List.foldl _ (b * 0 + d) t = _
  rw [valB_foldl_from]
  ring_nf

theorem valB_append_singleton (b d : Nat) (l : List Nat) :
    valB b (l ++ [d]) = b * valB b l + d := by
  unfold valB
  rw [List.foldl_append]
  rfl

theorem valB_lt_pow {b : Nat} (hb : 1 ≤ b) :
    ∀ l : List Nat, (∀ d ∈ l, d < b) → valB b l < b ^ l.length := by
  intro l
  induction l with
  | nil => intro _; simp [valB]
  | cons d t ih =>
      intro h
      have hd : d < b := h d (by simp)
      have ht : valB b t < b ^ t.length := ih (fun x hx => h x (by simp [hx]))
      have hpos : 0 < b ^ t.length := Nat.pos_pow_of_pos _ (by omega)
      rw [valB_cons, List.length_cons]
      calc d * b ^ t.length + valB b t
            < d * b ^ t.length + b ^ t.length := by omega
        _ = (d + 1) * b ^ t.length := by ring
        _ ≤ b * b ^ t.length := Nat.mul_le_mul_right _ (by omega)
        _ = b ^ (t.length + 1) := by rw [pow_succ]; ring

theorem foldl_replicate_zero (b m : Nat) :
    (List.replicate m 0).foldl (fun a d => b * a + d) 0 = 0 := by
  induction m with
  | zero => rfl
  | succ k ih => simpa [List.replicate_succ] using ih

theorem valB_padZeros (b w : Nat) (l : List Nat) :
    valB b (padZeros w l) = valB b l := by
  unfold valB padZeros
  rw [List.foldl_append, foldl_replicate_zero]

theorem padZeros_length {w : Nat} {l : List Nat} (h : l.length ≤ w) :
    (padZeros w l).length = w := by
  simp [padZeros]
  omega

theorem padZeros_digits {b w : Nat} {l : List Nat} (hb : 0 < b)
    (h : ∀ d ∈ l, d < b) : ∀ d ∈ padZeros w l, d < b := by
  intro d hd
  rcases List.mem_append.1 hd with h1 | h2
  · have := List.eq_of_mem_replicate h1
    omega
  · exact h d h2

theorem valB_baseDigitsGo {b : Nat} (hb : 2 ≤ b) :
    ∀ fuel n, n ≤ fuel → valB b (baseDigitsGo b fuel n) = n := by
  intro fuel
  induction fuel with
  | zero =>
      intro n hn
      have : n = 0 := by omega
      subst this
      simp [baseDigitsGo, valB]
  | succ f ih =>
      intro n hn
      simp only [baseDigitsGo]
      split
      · simp [valB]
      · next hnb =>
          have hpos : 0 < n := by omega
          have hdiv : n / b < n := Nat.div_lt_self hpos (by omega)
          rw [valB_append_singleton, ih (n / b) (by omega)]
          exact Nat.div_add_mod n b

theorem baseDigitsGo_digits {b : Nat} (hb : 2 ≤ b) :
    ∀ fuel n, n ≤ fuel → ∀ d ∈ baseDigitsGo b fuel n, d < b := by
  intro fuel
  induction fuel with
  | zero =>
      intro n hn d hd
      have : n = 0 := by omega
      subst this
      simp [baseDigitsGo] at hd
      omega
  | succ f ih =>
      intro n hn d hd
      simp only [baseDigitsGo] at hd
      revert hd
      split
      · intro hd
        simp at hd
        omega
      · next hnb =>
          intro hd
          rcases List.mem_append.1 hd with h1 | h2
          · have hpos : 0 < n := by omega
            have hdiv : n / b < n := Nat.div_lt_self hpos (by omega)
            exact ih (n / b) (by omega) d h1
          · have hmod : n % b < b := Nat.mod_lt n (by omega)
            simp at h2
            omega

theorem baseDigitsGo_length {b : Nat} (hb : 2 ≤ b) :
    ∀ fuel n k, n ≤ fuel → 1 ≤ k → n < b ^ k →
      (baseDigitsGo b fuel n).length ≤ k := by
  intro fuel
  induction fuel with
  | zero =>
      intro n k hn hk _
      have : n = 0 := by omega
      subst this
      simp [baseDigitsGo]
      omega
  | succ f ih =>
      intro n k hn hk hnk
      simp only [baseDigitsGo]
      split
      · simp
        omega
      · next hnb =>
          have hpos : 0 < n := by omega
          have hdiv : n / b < n := Nat.div_lt_self hpos (by omega)
          have hk2 : 2 ≤ k := by
            by_contra hc
            have hk1 : k = 1 := by omega
            subst hk1
            simp at hnk
            omega
          have hq : n / b < b ^ (k - 1) := by
            rw [Nat.div_lt_iff_lt_mul (by omega : 0 < b)]
            have : b ^ (k - 1) * b = b ^ k := by
              conv_rhs => rw [show k = (k - 1) + 1 by omega]
              rw [pow_succ]
            omega
          have := ih (n / b) (k - 1) (by omega) (by omega) hq
          simp only [List.length_append, List.length_cons, List.length_nil]
          omega

theorem digitChar_lt_digitChar : ∀ e < 10, ∀ d < e, digitChar d < digitChar e := by
  decide

/-- Equal-length small-digit lists compare lexicographically as their
values do. -/
theorem list_lt_of_valB_lt :
    ∀ l₁ l₂ : List Nat, l₁.length = l₂.length →
      (∀ d ∈ l₁, d < 10) → (∀ d ∈ l₂, d < 10) →
      valB 10 l₁ < valB 10 l₂ →
      List.lt (l₁.map digitChar) (l₂.map digitChar) := by
  intro l₁
  induction l₁ with
  | nil =>
      intro l₂ hlen _ _ hv
      cases l₂ with
      | nil => simp [valB] at hv
      | cons b bs => simp at hlen
  | cons a as ih =>
      intro l₂ hlen h₁ h₂ hv
      cases l₂ with
      | nil => simp at hlen
      | cons b bs =>
          have hlen' : as.length = bs.length := by simpa using hlen
          have ha : a < 10 := h₁ a (by simp)
          have hbb : b < 10 := h₂ b (by simp)
          rcases Nat.lt_trichotomy a b with hab | hab | hab
          · exact List.lt.head _ _ (digitChar_lt_digitChar b hbb a hab)
          · subst hab
            have hvt : valB 10 as < valB 10 bs := by
              rw [valB_cons, valB_cons, hlen'] at hv
              exact Nat.lt_of_add_lt_add_left hv
            exact List.lt.tail (lt_irrefl _) (lt_irrefl _)
              (ih bs hlen' (fun d hd => h₁ d (by simp [hd]))
                (fun d hd => h₂ d (by simp [hd])) hvt)
          · exfalso
            have hbs : valB 10 bs < 10 ^ bs.length :=
              valB_lt_pow (by omega) bs (fun d hd => h₂ d (by simp [hd]))
            have : valB 10 (b :: bs) < valB 10 (a :: as) := by
              rw [valB_cons, valB_cons, hlen']
              calc b * 10 ^ bs.length + valB 10 bs
                    < b * 10 ^ bs.length + 10 ^ bs.length := by omega
                _ = (b + 1) * 10 ^ bs.length := by ring
                _ ≤ a * 10 ^ bs.length := Nat.mul_le_mul_right _ (by omega)
                _ ≤ a * 10 ^ bs.length + valB 10 as := Nat.le_add_right _ _
            omega

/-- C6: `stringify` is strictly monotone (as lexicographic text order) on
non-negative integers of at most 16 decimal digits, because they are
rendered as 16-digit zero-padded decimal text. -/
theorem stringify_strict_mono_16_digits (a b : Nat) (hab : a < b)
    (hb : b < 10 ^ 16) :
    ∃ sa sb, stringify (PVal.int (a : Int)) = PVal.str sa
      ∧ stringify (PVal.int (b : Int)) = PVal.str sb ∧ sa < sb := by
  refine ⟨intPad16 (a : Int), intPad16 (b : Int), rfl, rfl, ?_⟩
  have ha16 : a < 10 ^ 16 := lt_trans hab hb
  have hnn : ∀ n : Nat, intPad16 (n : Int)
      = digitsToString (padZeros 16 (baseDigits 10 n)) := by
    intro n
    unfold intPad16
    rw [if_neg (by simp)]
    simp
  rw [hnn a, hnn b]
  have hshape : ∀ n : Nat, n < 10 ^ 16 →
      (padZeros 16 (baseDigits 10 n)).length = 16
      ∧ (∀ d ∈ padZeros 16 (baseDigits 10 n), d < 10)
      ∧ valB 10 (padZeros 16 (baseDigits 10 n)) = n := by
    intro n hn
    refine ⟨padZeros_length (baseDigitsGo_length (by omega) n n 16 le_rfl (by omega) hn),
      padZeros_digits (by omega) (baseDigitsGo_digits (by omega) n n le_rfl), ?_⟩
    rw [valB_padZeros]
    exact valB_baseDigitsGo (by omega) n n le_rfl
  obtain ⟨hl₁, hd₁, hv₁⟩ := hshape a ha16
  obtain ⟨hl₂, hd₂, hv₂⟩ := hshape b hb
  rw [String.lt_iff_toList_lt]
  show List.Lex (· < ·) (List.map digitChar (padZeros 16 (baseDigits 10 a)))
    (List.map digitChar (padZeros 16 (baseDigits 10 b)))
  rw [← List.lt_iff_lex_lt]
  exact list_lt_of_valB_lt _ _ (by rw [hl₁, hl₂]) hd₁ hd₂ (by rw [hv₁, hv₂]; exact hab)

/-- Witness for C6 at 3 < 7. -/
theorem stringify_strict_mono_16_digits_witness :
    ∃ sa sb, stringify (PVal.int ((3 : Nat) : Int)) = PVal.str sa
      ∧ stringify (PVal.int ((7 : Nat) : Int)) = PVal.str sb ∧ sa < sb :=
  stringify_strict_mono_16_digits 3 7 (by decide) (by norm_num)

/-! ### Association-list and index-row lemmas -/

theorem getAssoc_setAssoc_self {α : Type} (l : List (String × α)) (k : String) (v : α) :
    getAssoc (setAssoc l k v) k = some v := by
  induction l with
  | nil => simp [setAssoc, getAssoc, List.find?]
  | cons p rest ih =>
      obtain ⟨k0, v0⟩ := p
      by_cases h : k0 == k
      · simp [setAssoc, h, getAssoc, List.find?]
      · simp only [setAssoc, h, if_neg, Bool.false_eq_true, if_false]
        simpa [getAssoc, List.find?, h] using ih

theorem find?_filter_not_eq_none (p : Row → Bool) (l : List Row) :
    (l.filter (fun r => !p r)).find? p = Option.none := by
  rw [List.find?_eq_none]
  intro r hr
  have hmem := List.mem_filter.1 hr
  simp only [Bool.not_eq_true'] at hmem
  simp [hmem.2]

/-- After the delete-then-insert of `_update_index_for`, the probe
`where _id = ?` finds exactly the fresh row. -/
theorem rowFind_deleteInsert (idx : List Row) (id : String) (row : Row)
    (hrow : sqlEq (getCol row "_id") (PVal.str id) = true) :
    rowFind ((idx.filter fun r => !(sqlEq (getCol r "_id") (PVal.str id))) ++ [row]) id
      = some row := by
  unfold rowFind
  rw [List.find?_append, find?_filter_not_eq_none]
  simp [List.find?, hrow]

theorem find?_map_key (g : String → PVal) (k : String) :
    ∀ ixs : List String, k ∈ ixs →
      (ixs.map (fun ix => (ix, g ix))).find? (fun p => p.1 == k) = some (k, g k) := by
  intro ixs
  induction ixs with
  | nil => simp
  | cons ix rest ih =>
      intro hmem
      by_cases h : ix == k
      · have hik : ix = k := by simpa using h
        subst hik
        simp [List.find?]
      · have hik : ix ≠ k := by simpa using h
        have hrest : k ∈ rest := by
          rcases List.mem_cons.1 hmem with h1 | h2
          · exact absurd h1.symm hik
          · exact h2
        simp only [List.map_cons, List.find?, h]
        exact ih hrest

/-- The `_id` column of a freshly built index row. -/
theorem mkRow_id {cfg : Collection} (hid : "_id" ∈ cfg.indexes) (doc : Doc) (h : String) :
    getCol (mkRow cfg doc h) "_id" = stringify (docGetD doc "_id") := by
  unfold getCol mkRow getAssoc
  rw [List.find?_append, find?_map_key (fun ix => stringify (docGetD doc ix)) "_id" _ hid]
  rfl

/-- The `_hash` column of a freshly built index row. -/
theorem mkRow_hash {cfg : Collection} (hh : "_hash" ∉ cfg.indexes) (doc : Doc) (h : String) :
    getCol (mkRow cfg doc h) "_hash" = PVal.str h := by
  unfold getCol mkRow getAssoc
  rw [List.find?_append]
  have hnone : (cfg.indexes.map fun ix => (ix, stringify (docGetD doc ix))).find?
      (fun p => p.1 == "_hash") = Option.none := by
    rw [List.find?_eq_none]
    intro p hp
    obtain ⟨ix, hix, rfl⟩ := List.mem_map.1 hp
    simp only [beq_iff_eq]
    intro hcontra
    exact hh (hcontra ▸ hix)
  rw [hnone]
  simp [List.find?]

theorem sqlEq_str_self (s : String) : sqlEq (PVal.str s) (PVal.str s) = true := by
  simp [sqlEq]

/-- When `document.get(k)` yields text, the key is present with exactly
that text (the `getD` default only ever produces `None`). -/
theorem getAssoc_of_docGetD_str {doc : Doc} {k s : String}
    (h : docGetD doc k = PVal.str s) : getAssoc doc k = some (PVal.str s) := by
  unfold docGetD at h
  cases hg : getAssoc doc k with
  | none =>
      rw [hg] at h
      exact absurd h (by simp)
  | some v =>
      rw [hg] at h
      simp only [Option.getD_some] at h
      rw [h]

/-- The consistency guarantee holds for the post-normalization body of
`save`. -/
theorem saveCore_consistent (rt : Runtime) (cfg : Collection)
    (st : State) (gen : String) (document doc2 : Doc) (st2 : State)
    (hid : "_id" ∈ cfg.indexes) (hh : "_hash" ∉ cfg.indexes)
    (hs : saveCore rt cfg st gen document = Except.ok (doc2, st2)) :
    ∃ id bytes row,
      getAssoc doc2 "_id" = some (PVal.str id)
      ∧ getAssoc st2.files id = some bytes
      ∧ rowFind st2.index id = some row
      ∧ getCol row "_hash" = PVal.str (rt.hash bytes) := by
  unfold saveCore at hs
  split at hs
  · split at hs
    · cases hs
    · next idx2 hupd =>
        cases hs
        unfold updateIndexFor at hupd
        rw [getAssoc_setAssoc_self] at hupd
        cases hupd
        refine ⟨gen, _, _, getAssoc_setAssoc_self _ _ _, getAssoc_setAssoc_self _ _ _,
          rowFind_deleteInsert _ _ _ ?_, mkRow_hash hh _ _⟩
        rw [mkRow_id hid]
        unfold docGetD
        rw [getAssoc_setAssoc_self]
        exact sqlEq_str_self _
  · next id hpresent =>
      split at hs
      · cases hs
      · next idx2 hupd =>
          cases hs
          unfold updateIndexFor at hupd
          rw [getAssoc_of_docGetD_str hpresent] at hupd
          cases hupd
          refine ⟨id, _, _, getAssoc_of_docGetD_str hpresent,
            getAssoc_setAssoc_self _ _ _,
            rowFind_deleteInsert _ _ _ ?_, mkRow_hash hh _ _⟩
          rw [mkRow_id hid, hpresent]
          exact sqlEq_str_self _
  · cases hs

/-- C1: whenever `save` returns successfully, the content store and the
index store agree for the saved id — the row found by `_id` carries in its
`_hash` column exactly the hash of the bytes sitting in the document's
file. -/
theorem save_content_index_consistent (rt : Runtime) (cfg : Collection)
    (st : State) (gen : String) (pd : Bool) (document doc2 : Doc) (st2 : State)
    (hid : "_id" ∈ cfg.indexes) (hh : "_hash" ∉ cfg.indexes)
    (hs : Collection.save rt cfg st gen pd document = Except.ok (doc2, st2)) :
    ∃ id bytes row,
      getAssoc doc2 "_id" = some (PVal.str id)
      ∧ getAssoc st2.files id = some bytes
      ∧ rowFind st2.index id = some row
      ∧ getCol row "_hash" = PVal.str (rt.hash bytes) := by
  unfold Collection.save at hs
  exact saveCore_consistent rt cfg st gen _ doc2 st2 hid hh hs

/-- A concrete runtime for witnesses: every byte sequence decodes to the
same one-field mapping, every hash is `"h"`. -/
def rtFix : Runtime :=
  { dump := fun _ => [1], load := fun _ => some [("k", PVal.int 2)],
    hash := fun _ => "h" }

/-- A concrete collection indexed only on `_id`. -/
def cfgFix : Collection := { name := "things", indexes := ["_id"] }

/-- An empty collection state. -/
def stEmpty : State := { files := [], index := [] }

/-- The state produced by the witness save below. -/
def st2Fix : State :=
  { files := [("g", [1])],
    index := [[("_id", PVal.str "g"), ("_hash", PVal.str "h")]] }

/-! ### uuid4 text and the id-assignment behaviour of `save`

`str(uuid.uuid4())` renders a random 128-bit value as 32 lower-case hex
digits in 8-4-4-4-12 groups; the generated text is always 36 characters.
The random draw is the `n` parameter; the source performs no check that
the drawn id differs from ids already assigned in the collection. -/

/-- The character for a hex digit (`0`–`9a`–`f` for `d < 16`). -/
def hexChar (d : Nat) : Char :=
  if d < 10 then digitChar d else Char.ofNat (87 + d)

/-- `w` lower-case hex characters of `n` (mod `16 ^ w`), zero-padded. -/
def hexPad (w n : Nat) : List Char :=
  (padZeros w (baseDigits 16 (n % 16 ^ w))).map hexChar

/-- `str(uuid.UUID(int=n))`: the canonical 8-4-4-4-12 hex rendering. -/
def uuidStr (n : Nat) : String :=
  String.mk (hexPad 8 (n >>> 96) ++ ['-'] ++ hexPad 4 (n >>> 80) ++ ['-'] ++
    hexPad 4 (n >>> 64) ++ ['-'] ++ hexPad 4 (n >>> 48) ++ ['-'] ++ hexPad 12 n)

theorem hexPad_length (w n : Nat) (hw : 1 ≤ w) : (hexPad w n).length = w := by
  unfold hexPad
  rw [List.length_map]
  apply padZeros_length
  unfold baseDigits
  exact baseDigitsGo_length (by omega) _ _ w le_rfl hw
    (Nat.mod_lt _ (Nat.pos_pow_of_pos _ (by omega)))

theorem uuidStr_length (n : Nat) : (uuidStr n).length = 36 := by
  have h8 := hexPad_length 8 (n >>> 96) (by omega)
  have h4a := hexPad_length 4 (n >>> 80) (by omega)
  have h4b := hexPad_length 4 (n >>> 64) (by omega)
  have h4c := hexPad_length 4 (n >>> 48) (by omega)
  have h12 := hexPad_length 12 n (by omega)
  simp [uuidStr, List.length_append, h8, h4a, h4b, h4c, h12]

theorem uuidStr_ne_empty (n : Nat) : uuidStr n ≠ "" := by
  intro h
  have hlen := uuidStr_length n
  rw [h] at hlen
  simp at hlen

theorem mem_insertByKey (p : String × PVal) (l : Doc) (x : String × PVal) :
    x ∈ insertByKey p l ↔ x = p ∨ x ∈ l := by
  induction l with
  | nil => simp [insertByKey]
  | cons q rest ih =>
      unfold insertByKey
      split
      · simp [List.mem_cons]
      · simp only [List.mem_cons, ih]
        tauto

theorem mem_sortDoc (l : Doc) (x : String × PVal) : x ∈ sortDoc l ↔ x ∈ l := by
  induction l with
  | nil => simp [sortDoc]
  | cons p rest ih => simp [sortDoc, mem_insertByKey, ih]

theorem getAssoc_eq_none_iff {α : Type} (l : List (String × α)) (k : String) :
    getAssoc l k = Option.none ↔ ∀ p ∈ l, (p.1 == k) = false := by
  unfold getAssoc
  simp [List.find?_eq_none]

theorem getAssoc_sortDoc_none {l : Doc} {k : String}
    (h : getAssoc l k = Option.none) : getAssoc (sortDoc l) k = Option.none := by
  rw [getAssoc_eq_none_iff] at h ⊢
  intro p hp
  exact h p ((mem_sortDoc l p).1 hp)

/-- The id-assignment behaviour of the post-normalization body of
`save`: whenever `document.get('_id')` is `None` — key absent or key
present holding `None` — the generated text becomes the document's
`_id`. -/
theorem saveCore_assigns_gen (rt : Runtime) (cfg : Collection) (st : State)
    (gen : String) (document doc2 : Doc) (st2 : State)
    (hno : docGetD document "_id" = PVal.none)
    (hs : saveCore rt cfg st gen document = Except.ok (doc2, st2)) :
    getAssoc doc2 "_id" = some (PVal.str gen) := by
  unfold saveCore at hs
  simp only [hno] at hs
  split at hs
  · cases hs
  · cases hs
    exact getAssoc_setAssoc_self _ _ _

/-- C7 (amended): a save of a document with no `_id` assigns exactly the
freshly drawn uuid4 text and returns the id-augmented document; that text
is never empty (always 36 characters).  Uniqueness against previously
assigned ids is only as good as the random draw — the code never checks
it (see the collision counterexample below). -/
theorem save_assigns_generated_uuid (rt : Runtime) (cfg : Collection)
    (st : State) (n : Nat) (pd : Bool) (document doc2 : Doc) (st2 : State)
    (hno : getAssoc document "_id" = Option.none)
    (hs : Collection.save rt cfg st (uuidStr n) pd document
      = Except.ok (doc2, st2)) :
    getAssoc doc2 "_id" = some (PVal.str (uuidStr n)) ∧ uuidStr n ≠ "" := by
  refine ⟨?_, uuidStr_ne_empty n⟩
  unfold Collection.save at hs
  have hno' : docGetD (if pd then sortDoc document else document) "_id"
      = PVal.none := by
    cases pd
    · show docGetD document "_id" = PVal.none
      unfold docGetD
      rw [hno]
      rfl
    · show docGetD (sortDoc document) "_id" = PVal.none
      unfold docGetD
      rw [getAssoc_sortDoc_none hno]
      rfl
  exact saveCore_assigns_gen rt cfg st (uuidStr n) _ doc2 st2 hno' hs

/-- A collection state in which id `"x"` has already been assigned. -/
def stX : State := { files := [("x", [9])], index := [] }

/-- C7 counterexample: nothing prevents the generated id from colliding
with a previously assigned one.  When the uuid4 draw yields the text
`"x"` — already an assigned id in `stX` — `save` happily returns a
document whose fresh `_id` *equals* that previously assigned id,
overwriting the other document's file. -/
theorem save_generated_id_collision :
    (match Collection.save rtFix cfgFix stX "x" true [("a", PVal.int 1)] with
      | Except.ok (d, _) => getAssoc d "_id"
      | Except.error _ => Option.none) = some (PVal.str "x")
    ∧ "x" ∈ stX.files.map Prod.fst := by
  decide

/-- The state produced by the witness save for C7. -/
def st2U : State :=
  { files := [(uuidStr 0, [1])],
    index := [[("_id", PVal.str (uuidStr 0)), ("_hash", PVal.str "h")]] }

/-- Witness for the amended C7 at a concrete save. -/
theorem save_assigns_generated_uuid_witness :
    getAssoc [("a", PVal.int 1), ("_id", PVal.str (uuidStr 0))] "_id"
      = some (PVal.str (uuidStr 0)) ∧ uuidStr 0 ≠ "" :=
  save_assigns_generated_uuid rtFix cfgFix stEmpty 0 true [("a", PVal.int 1)]
    [("a", PVal.int 1), ("_id", PVal.str (uuidStr 0))] st2U (by decide) (by decide)

/-! ### Decode failures, missing files, and the reconciliation pass -/

/-- A runtime in which every file's bytes fail to decode. -/
def rtBad : Runtime :=
  { dump := fun _ => [], load := fun _ => Option.none, hash := fun _ => "h" }

/-- A one-file collection state whose single file will fail to decode
under `rtBad`. -/
def stBad : State := { files := [("a", [0])], index := [] }

/-- C4 counterexample: a document file whose bytes fail to decode is
*fatal* to the surrounding pass.  On `stBad` the reconciliation pass
aborts with the decode error instead of skipping the file and
continuing, and the `all()` resolution loop likewise raises instead of
treating the id as no match. -/
theorem decode_failure_aborts_pass :
    Collection.reindex rtBad cfgFix stBad = Except.error Err.decodeFailure
    ∧ allResolve rtBad stBad.files ["a"] = Except.error Err.decodeFailure := by
  decide

/-- C4 (amended): the skip-and-continue behaviours the code really has
are narrower — (i) during `all()`/`first()` resolution an id whose file
is *missing* is treated as no match and the loop continues; (ii) during
reconciliation a file is skipped when its recorded hash matches; but
(iii) a file whose bytes fail to decode raises `DecodeFailure` out of
both the reconciliation step and the resolution loop. -/
theorem missing_skipped_decode_fatal (rt : Runtime) (files : Files)
    (cfg : Collection) (idx : List Row) (id : String) (rest : List String)
    (bytes : Bytes) :
    (getAssoc files id = Option.none →
      allResolve rt files (id :: rest) = allResolve rt files rest)
    ∧ (getAssoc files id = some bytes →
       reindexFetchSkip idx id (rt.hash bytes) = true →
       tryReindexFile rt cfg files idx id = Except.ok idx)
    ∧ (getAssoc files id = some bytes →
       rt.load bytes = Option.none →
       reindexFetchSkip idx id (rt.hash bytes) = false →
       tryReindexFile rt cfg files idx id = Except.error Err.decodeFailure
       ∧ allResolve rt files (id :: rest) = Except.error Err.decodeFailure) := by
  refine ⟨?_, ?_, ?_⟩
  · intro h
    have hg : Collection.get rt files id = Except.ok Option.none := by
      unfold Collection.get
      simp [h]
    simp [allResolve, hg]
  · intro h hskip
    unfold tryReindexFile
    simp [h, hskip]
  · intro h hload hskip
    have hg : Collection.get rt files id = Except.error Err.decodeFailure := by
      unfold Collection.get
      simp [h, hload]
    constructor
    · unfold tryReindexFile
      simp [h, hskip, hg]
    · simp [allResolve, hg]

/-- An index table already carrying the matching hash for id `a`. -/
def idxFix : List Row := [[("_id", PVal.str "a"), ("_hash", PVal.str "h")]]

/-- Witness for the amended C4: a missing file is skipped by `all()`
resolution; a hash-matching file is skipped by reconciliation; an
undecodable file aborts both. -/
theorem missing_skipped_decode_fatal_witness :
    (allResolve rtFix [] ["a"] = allResolve rtFix [] [])
    ∧ (tryReindexFile rtFix cfgFix [("a", [0])] idxFix "a" = Except.ok idxFix)
    ∧ (tryReindexFile rtBad cfgFix [("a", [0])] [] "a"
        = Except.error Err.decodeFailure
       ∧ allResolve rtBad [("a", [0])] ["a"] = Except.error Err.decodeFailure) :=
  ⟨(missing_skipped_decode_fatal rtFix [] cfgFix [] "a" [] []).1 rfl,
   (missing_skipped_decode_fatal rtFix [("a", [0])] cfgFix idxFix "a" [] [0]).2.1
     rfl (by decide),
   (missing_skipped_decode_fatal rtBad [("a", [0])] cfgFix [] "a" [] [0]).2.2
     rfl rfl (by decide)⟩

/-- Witness for C1: a fresh save into an empty collection. -/
theorem save_content_index_consistent_witness :
    ∃ id bytes row,
      getAssoc [("a", PVal.int 1), ("_id", PVal.str "g")] "_id" = some (PVal.str id)
      ∧ getAssoc st2Fix.files id = some bytes
      ∧ rowFind st2Fix.index id = some row
      ∧ getCol row "_hash" = PVal.str (rtFix.hash bytes) :=
  save_content_index_consistent rtFix cfgFix stEmpty "g" true
    [("a", PVal.int 1)] [("a", PVal.int 1), ("_id", PVal.str "g")] st2Fix
    (by decide) (by decide) (by decide)

example :
    Collection.save rtFix cfgFix stEmpty "g" false
        [("_id", PVal.none), ("a", PVal.int 1)]
      = Except.ok ([("_id", PVal.str "g"), ("a", PVal.int 1)], st2Fix) := by
  decide

/-! ### Idempotence of the reconciliation pass -/

theorem sqlEq_eq_str {v : PVal} {s : String} (h : sqlEq v (PVal.str s) = true) :
    v = PVal.str s := by
  cases v with
  | str a =>
      simp [sqlEq] at h
      rw [h]
  | none => simp [sqlEq] at h
  | bool b => simp [sqlEq] at h
  | int i => simp [sqlEq] at h
  | datetime dt => simp [sqlEq] at h

theorem find?_filter_eq (p q : Row → Bool) (l : List Row)
    (h : ∀ r, p r = true → q r = true) :
    (l.filter q).find? p = l.find? p := by
  induction l with
  | nil => rfl
  | cons r rest ih =>
      by_cases hq : q r
      · by_cases hp : p r <;> simp [List.filter_cons, hq, List.find?, hp, ih]
      · have hp : p r = false := by
          by_contra hc
          exact hq (h r (by revert hc; simp))
        simp [List.filter_cons, hq, List.find?, hp, ih]

/-- The delete-then-insert of `_update_index_for` leaves lookups for any
*other* id unchanged. -/
theorem rowFind_deleteInsert_other (idx : List Row) (id id2 : String) (row : Row)
    (hne : id2 ≠ id) (hrow : getCol row "_id" = PVal.str id) :
    rowFind ((idx.filter fun r => !(sqlEq (getCol r "_id") (PVal.str id))) ++ [row]) id2
      = rowFind idx id2 := by
  unfold rowFind
  rw [List.find?_append]
  have h1 : (idx.filter fun r => !(sqlEq (getCol r "_id") (PVal.str id))).find?
      (fun r => sqlEq (getCol r "_id") (PVal.str id2))
      = idx.find? (fun r => sqlEq (getCol r "_id") (PVal.str id2)) := by
    apply find?_filter_eq
    intro r hp
    rw [sqlEq_eq_str hp]
    simp [sqlEq, hne]
  have h2 : List.find? (fun r => sqlEq (getCol r "_id") (PVal.str id2)) [row]
      = Option.none := by
    have hfalse : sqlEq (getCol row "_id") (PVal.str id2) = false := by
      rw [hrow]
      simp [sqlEq]
      exact fun hc => hne hc.symm
    simp [List.find?, hfalse]
  rw [h1, h2, Option.or_none]

/-- A successful direct read of an existing file injects the id. -/
theorem get_ok_some_shape (rt : Runtime) (files : Files) (id : String) (doc : Doc)
    (h : Collection.get rt files id = Except.ok (some doc)) :
    getAssoc doc "_id" = some (PVal.str id) := by
  unfold Collection.get at h
  split at h
  · cases h
  · split at h
    · cases h
    · cases h
      exact getAssoc_setAssoc_self _ _ _

/-- A read that reports an absent document means the file is absent. -/
theorem get_ok_none_files (rt : Runtime) (files : Files) (id : String)
    (h : Collection.get rt files id = Except.ok Option.none) :
    getAssoc files id = Option.none := by
  unfold Collection.get at h
  split at h
  · next heq => exact heq
  · split at h
    · cases h
    · cases h

/-- After a successful `_try_reindex_file` step, the recorded hash for
the processed id matches the file's hash (so the skip test now fires). -/
theorem tryReindex_ok_skip {rt : Runtime} {cfg : Collection} {files : Files}
    {idx idx2 : List Row} {id : String} {bytes : Bytes}
    (hid : "_id" ∈ cfg.indexes) (hh : "_hash" ∉ cfg.indexes)
    (hfind : getAssoc files id = some bytes)
    (hok : tryReindexFile rt cfg files idx id = Except.ok idx2) :
    reindexFetchSkip idx2 id (rt.hash bytes) = true := by
  unfold tryReindexFile at hok
  simp only [hfind] at hok
  split at hok
  · next hcond =>
      cases hok
      exact hcond
  · split at hok
    · cases hok
    · next heq =>
        exfalso
        rw [get_ok_none_files rt files id heq] at hfind
        cases hfind
    · next doc heq =>
        have hdoc : getAssoc doc "_id" = some (PVal.str id) :=
          get_ok_some_shape rt files id doc heq
        unfold updateIndexFor at hok
        rw [hdoc] at hok
        cases hok
        have hrow : sqlEq (getCol (mkRow cfg doc (rt.hash bytes)) "_id")
            (PVal.str id) = true := by
          rw [mkRow_id hid]
          unfold docGetD
          rw [hdoc]
          exact sqlEq_str_self _
        unfold reindexFetchSkip
        rw [rowFind_deleteInsert _ _ _ hrow]
        show sqlEq (getCol (mkRow cfg doc (rt.hash bytes)) "_hash")
          (PVal.str (rt.hash bytes)) = true
        rw [mkRow_hash hh]
        exact sqlEq_str_self _

/-- A `_try_reindex_file` step never disturbs another id's row lookup. -/
theorem tryReindex_ok_other {rt : Runtime} {cfg : Collection} {files : Files}
    {idx idx2 : List Row} {id id2 : String}
    (hid : "_id" ∈ cfg.indexes) (hne : id2 ≠ id)
    (hok : tryReindexFile rt cfg files idx id = Except.ok idx2) :
    rowFind idx2 id2 = rowFind idx id2 := by
  unfold tryReindexFile at hok
  split at hok
  · cases hok
  · split at hok
    · cases hok
      rfl
    · split at hok
      · cases hok
      · cases hok
        rfl
      · next doc heq =>
          have hdoc : getAssoc doc "_id" = some (PVal.str id) :=
            get_ok_some_shape rt files id doc heq
          unfold updateIndexFor at hok
          rw [hdoc] at hok
          cases hok
          apply rowFind_deleteInsert_other idx id id2 _ hne
          rw [mkRow_id hid]
          unfold docGetD
          rw [hdoc]
          rfl

theorem reindexGo_preserves_other (rt : Runtime) (cfg : Collection) (files : Files)
    (hid : "_id" ∈ cfg.indexes) :
    ∀ (fl : List (String × Bytes)) (idx idx2 : List Row) (id2 : String),
      reindexGo rt cfg files fl idx = Except.ok idx2 →
      (∀ p ∈ fl, p.1 ≠ id2) →
      rowFind idx2 id2 = rowFind idx id2 := by
  intro fl
  induction fl with
  | nil =>
      intro idx idx2 id2 h _
      cases h
      rfl
  | cons p rest ih =>
      intro idx idx2 id2 h hne
      obtain ⟨id, bytes⟩ := p
      simp only [reindexGo] at h
      split at h
      · cases h
      · next idxm htry =>
          have h1 : rowFind idxm id2 = rowFind idx id2 :=
            tryReindex_ok_other hid (Ne.symm (hne (id, bytes) (by simp))) htry
          have h2 : rowFind idx2 id2 = rowFind idxm id2 :=
            ih idxm idx2 id2 h (fun q hq => hne q (by simp [hq]))
          rw [h2, h1]

theorem reindexGo_post (rt : Runtime) (cfg : Collection) (files : Files)
    (hid : "_id" ∈ cfg.indexes) (hh : "_hash" ∉ cfg.indexes) :
    ∀ (fl : List (String × Bytes)) (idx idx2 : List Row),
      reindexGo rt cfg files fl idx = Except.ok idx2 →
      (fl.map Prod.fst).Nodup →
      (∀ p ∈ fl, getAssoc files p.1 = some p.2) →
      ∀ p ∈ fl, reindexFetchSkip idx2 p.1 (rt.hash p.2) = true := by
  intro fl
  induction fl with
  | nil =>
      intro idx idx2 _ _ _ p hp
      exact absurd hp (List.not_mem_nil p)
  | cons q rest ih =>
      intro idx idx2 h hnd hfind p hp
      obtain ⟨id, bytes⟩ := q
      simp only [reindexGo] at h
      split at h
      · cases h
      · next idxm htry =>
          simp only [List.map_cons, List.nodup_cons] at hnd
          rcases List.mem_cons.1 hp with h1 | h2
          · cases h1
            have hskip1 : reindexFetchSkip idxm id (rt.hash bytes) = true :=
              tryReindex_ok_skip hid hh (hfind (id, bytes) (by simp)) htry
            have hpres : rowFind idx2 id = rowFind idxm id :=
              reindexGo_preserves_other rt cfg files hid rest idxm idx2 id h
                (fun q hq hc => hnd.1 (hc ▸ List.mem_map_of_mem Prod.fst hq))
            unfold reindexFetchSkip at hskip1 ⊢
            rw [hpres]
            exact hskip1
          · exact ih idxm idx2 h hnd.2 (fun q hq => hfind q (by simp [hq])) p h2

theorem reindexGo_allSkip (rt : Runtime) (cfg : Collection) (files : Files) :
    ∀ (fl : List (String × Bytes)) (idx : List Row),
      (∀ p ∈ fl, getAssoc files p.1 = some p.2) →
      (∀ p ∈ fl, reindexFetchSkip idx p.1 (rt.hash p.2) = true) →
      reindexGo rt cfg files fl idx = Except.ok idx := by
  intro fl
  induction fl with
  | nil => intro idx _ _; rfl
  | cons q rest ih =>
      intro idx hfind hskip
      obtain ⟨id, bytes⟩ := q
      have htry : tryReindexFile rt cfg files idx id = Except.ok idx := by
        unfold tryReindexFile
        simp [hfind (id, bytes) (by simp), hskip (id, bytes) (by simp)]
      simp only [reindexGo, htry]
      exact ih idx (fun q hq => hfind q (by simp [hq])) (fun q hq => hskip q (by simp [hq]))

theorem getAssoc_of_mem_nodup {α : Type} :
    ∀ l : List (String × α), (l.map Prod.fst).Nodup →
      ∀ p ∈ l, getAssoc l p.1 = some p.2 := by
  intro l
  induction l with
  | nil =>
      intro _ p hp
      exact absurd hp (List.not_mem_nil p)
  | cons q rest ih =>
      intro hnd p hp
      simp only [List.map_cons, List.nodup_cons] at hnd
      rcases List.mem_cons.1 hp with h1 | h2
      · cases h1
        simp [getAssoc, List.find?]
      · have hne : q.1 ≠ p.1 := by
          intro hc
          exact hnd.1 (hc ▸ List.mem_map_of_mem Prod.fst h2)
        have hbeq : (q.1 == p.1) = false := by simp [hne]
        simp only [getAssoc, List.find?, hbeq]
        exact ih hnd.2 p h2

/-- One collection's reconciliation, run again right after a successful
pass over unchanged files, skips every file and changes nothing. -/
theorem collectionReindex_idempotent (rt : Runtime) (cfg : Collection)
    (st : State) (idx2 : List Row)
    (hid : "_id" ∈ cfg.indexes) (hh : "_hash" ∉ cfg.indexes)
    (hnd : (st.files.map Prod.fst).Nodup)
    (h : Collection.reindex rt cfg st = Except.ok idx2) :
    Collection.reindex rt cfg { st with index := idx2 } = Except.ok idx2 := by
  unfold Collection.reindex at h ⊢
  have hfind := getAssoc_of_mem_nodup st.files hnd
  exact reindexGo_allSkip rt cfg st.files st.files idx2 hfind
    (reindexGo_post rt cfg st.files hid hh st.files st.index idx2 h hnd hfind)

/-- C5: `Database.reindex` is idempotent — after one successful pass,
running it again with no intervening writes succeeds and performs no
index-row changes at all (every file's computed hash now equals the
recorded one, so every file is skipped).  The hypotheses record what the
source guarantees elsewhere: `_id` is always an index, no index is named
`_hash` (table creation would fail), and the directory listing has no
duplicate filenames. -/
theorem reindex_idempotent (rt : Runtime) :
    ∀ dbs dbs2 : List (Collection × State),
      (∀ c ∈ dbs, "_id" ∈ c.1.indexes ∧ "_hash" ∉ c.1.indexes
        ∧ (c.2.files.map Prod.fst).Nodup) →
      Database.reindex rt dbs = Except.ok dbs2 →
      Database.reindex rt dbs2 = Except.ok dbs2 := by
  intro dbs
  induction dbs with
  | nil =>
      intro dbs2 _ h
      cases h
      rfl
  | cons c rest ih =>
      intro dbs2 hok h
      obtain ⟨cfg, st⟩ := c
      simp only [Database.reindex] at h
      split at h
      · cases h
      · next idx2 hC =>
          split at h
          · cases h
          · next rest2 hR =>
              cases h
              have hc := hok (cfg, st) (by simp)
              have hC2 : Collection.reindex rt cfg { st with index := idx2 }
                  = Except.ok idx2 :=
                collectionReindex_idempotent rt cfg st idx2 hc.1 hc.2.1 hc.2.2 hC
              have hR2 : Database.reindex rt rest2 = Except.ok rest2 :=
                ih rest2 (fun c2 hcm => hok c2 (by simp [hcm])) hR
              simp only [Database.reindex, hC2, hR2]

/-- A one-file database with an empty index, reconciled once. -/
def dbFix : List (Collection × State) :=
  [(cfgFix, { files := [("a", [0])], index := [] })]

/-- The state after the first reconciliation pass over `dbFix`. -/
def dbFix2 : List (Collection × State) :=
  [(cfgFix, { files := [("a", [0])],
              index := [[("_id", PVal.str "a"), ("_hash", PVal.str "h")]] })]

/-- Witness for C5: the second pass over the already-reconciled database
returns it unchanged. -/
theorem reindex_idempotent_witness :
    Database.reindex rtFix dbFix2 = Except.ok dbFix2 :=
  reindex_idempotent rtFix dbFix dbFix2 (by decide) (by decide)

end YamlDb
